import Mathlib

/-!
# Verification of the seisces reconciliation spec against the repository

This development shallowly embeds the credit-opinion module `src/app.py`
(the functions `risk_color`, `parse_br_number`, `analyze_text_block` and
their string helpers), and models the ledger-reconciliation matching
engine (candidate generator, greedy resolver, divergence detector,
cleaning step) from the specification, since the matching-engine source
is not part of the provided sources.

Python strings are embedded as Lean `String`, Python `float` values as
`Rat` (exact rational arithmetic; the comparisons performed by the code
are order comparisons against integer constants and decimal literals),
Python `None`-or-value results as `Option`.
-/

namespace Seisces

/-! ## Embedding of `src/app.py` string helpers -/

/-- Characters treated as whitespace by Python `str.strip()` (the ASCII
whitespace characters; the texts involved use no exotic Unicode spaces). -/
def isSpaceChar (c : Char) : Bool :=
  c = ' ' || c = '\t' || c = '\n' || c = '\x0d' || c = '\x0b' || c = '\x0c'

/-- Python `str.strip()`: remove whitespace from both ends. -/
def pyStrip (s : String) : String :=
  ⟨(((s.data.dropWhile isSpaceChar).reverse.dropWhile isSpaceChar).reverse)⟩

/-- Python `str.lower()` restricted to the alphabet actually occurring in
the app's keyword lists and inputs: ASCII letters and the Latin-1
uppercase letters (`À`–`Þ`, except `×`) are mapped to their lowercase
forms; every other character is left unchanged. -/
def pyLowerChar (c : Char) : Char :=
  if 'A' ≤ c ∧ c ≤ 'Z' then Char.ofNat (c.toNat + 32)
  else if 'À' ≤ c ∧ c ≤ 'Þ' ∧ c ≠ '×' then Char.ofNat (c.toNat + 32)
  else c

/-- Python `str.lower()` on a whole string. -/
def pyLower (s : String) : String :=
  ⟨s.data.map pyLowerChar⟩

/-- Fuel-driven core of Python `str.count`: counts non-overlapping
occurrences of `w` in `t`, scanning left to right and skipping the full
pattern after each hit.  `fuel` bounds the recursion; `fuel = t.length`
is always enough because every step consumes at least one character. -/
def countOccAux : Nat → List Char → List Char → Nat
  | 0, _, _ => 0
  | _ + 1, _, [] => 0
  | fuel + 1, w, c :: rest =>
    if w ≠ [] ∧ (c :: rest).take w.length = w then
      1 + countOccAux fuel w ((c :: rest).drop w.length)
    else
      countOccAux fuel w rest

/-- Python `t.count(w)` for a non-empty pattern `w` (every keyword in the
app's lists is non-empty; for `w = ""` this returns `0`). -/
def countOcc (w t : String) : Nat :=
  countOccAux t.data.length w.data t.data

/-! ## `risk_color` (src/app.py, lines 118–126) -/

/-- `risk_color` from `src/app.py`: classify a percentage into one of four
risk labels.  The Python comparisons `percent >= 80`, `60 <= percent < 80`,
`40 <= percent < 60` are embedded over `Rat`. -/
def risk_color (percent : Rat) : String :=
  if 80 ≤ percent then "🟢 Verde (risco baixo)"
  else if 60 ≤ percent ∧ percent < 80 then "🟡 Amarelo (risco moderado)"
  else if 40 ≤ percent ∧ percent < 60 then "🟠 Laranja (risco elevado)"
  else "🔴 Vermelho (risco crítico)"

/-! ## Keyword lists and `analyze_text_block` (src/app.py, lines 103–157) -/

/-- `POSITIVE_WORDS` from `src/app.py`. -/
def POSITIVE_WORDS : List String :=
  ["em dia", "pontual", "sem atrasos", "sem atraso", "crescente", "crescendo",
   "estável", "aumentando", "melhorando", "reservas", "lucro", "lucrativo",
   "sem restrição", "sem protesto", "limpo", "organizado", "estruturado",
   "controle", "governança", "bom relacionamento", "boa reputação"]

/-- `NEGATIVE_WORDS` from `src/app.py`. -/
def NEGATIVE_WORDS : List String :=
  ["atraso", "atrasos", "inadimplência", "inadimplente", "protesto", "protestos",
   "serasa", "restrição", "restrições", "crise", "queda", "caindo", "dificuldade",
   "aperto", "negativo", "prejuízo", "endividado", "endividamento alto",
   "sem reserva", "sem garantia", "desorganizado", "bagunça"]

/-- `pos = sum(t.count(w) for w in POSITIVE_WORDS)` over the lowered text. -/
def posScore (t : String) : Nat :=
  (POSITIVE_WORDS.map (fun w => countOcc w t)).sum

/-- `neg = sum(t.count(w) for w in NEGATIVE_WORDS)` over the lowered text. -/
def negScore (t : String) : Nat :=
  (NEGATIVE_WORDS.map (fun w => countOcc w t)).sum

/-- The sentence returned by `analyze_text_block` when no qualitative
information was declared. -/
def insufficientMsg : String :=
  "Não houve informações qualitativas suficientes declaradas nessa dimensão para um diagnóstico mais fino."

/-- Base sentence of the branch `pos > neg`. -/
def positiveBase : String :=
  "As respostas qualitativas indicam tendência mais positiva nessa dimensão, com alguns pontos que jogam a favor da empresa."

/-- Base sentence of the branch `neg > pos`. -/
def negativeBase : String :=
  "As respostas qualitativas sugerem presença de fragilidades relevantes nessa dimensão, exigindo atenção redobrada."

/-- Base sentence of the balanced/mixed branch (`pos == neg`). -/
def mixedBase : String :=
  "As respostas qualitativas mostram um cenário misto, com fatores positivos e negativos se equilibrando."

/-- The per-category complement appended by `analyze_text_block`
(the trailing `else` covers `Conglomerado` and any other value). -/
def complementoFor (category : String) : String :=
  if category = "Caráter" then
    " Em Caráter, isso se traduz em histórico e postura que impactam diretamente a confiança na empresa."
  else if category = "Capacidade" then
    " Em Capacidade, essa leitura afeta diretamente a percepção sobre geração de caixa e capacidade de honrar compromissos."
  else if category = "Capital" then
    " Em Capital, isso reflete o quão preparada a empresa está estruturalmente para suportar choques e imprevistos."
  else if category = "Colateral" then
    " Em Colateral, o foco é a consistência e qualidade das garantias que poderiam mitigar o risco assumido."
  else if category = "Condições" then
    " Em Condições, a leitura recai sobre o ambiente externo e a aderência da tomada de crédito ao momento do negócio."
  else
    " Em Conglomerado, essa percepção está ligada à força do grupo econômico, gestão e governança."

/-- `analyze_text_block` from `src/app.py`: lower the text, count positive
and negative keyword occurrences, return the insufficient-information
sentence when both counts are zero and the stripped text is empty,
otherwise a tendency sentence plus the per-category complement. -/
def analyze_text_block (text category : String) : String :=
  if posScore (pyLower text) = 0 ∧ negScore (pyLower text) = 0 ∧
      pyStrip (pyLower text) = "" then
    insufficientMsg
  else
    (if posScore (pyLower text) > negScore (pyLower text) then positiveBase
     else if negScore (pyLower text) > posScore (pyLower text) then negativeBase
     else mixedBase) ++ complementoFor category

/-! ## `parse_br_number` (src/app.py, lines 171–176 and 725–730) -/

/-- Python `str.replace(pat, rep)` for a single-character pattern: every
occurrence of the character `pat` is replaced by the string `rep`
(the app only ever calls `replace` with the one-character patterns
`"."` and `","`). -/
def pyReplace1 (s : String) (pat : Char) (rep : String) : String :=
  ⟨s.data.flatMap (fun c => if c = pat then rep.data else [c])⟩

/-- Numeric value of a digit list read in base 10. -/
def digitsVal (ds : List Char) : Nat :=
  ds.foldl (fun acc c => 10 * acc + (c.toNat - '0'.toNat)) 0

/-- Model of Python `float(s)` on finite decimal literals: an optional
sign, a mantissa `digits`, `digits.digits`, `digits.` or `.digits`, and
an optional exponent `e`/`E` with optional sign and mandatory digits;
the whole string must be consumed.  (`inf`/`nan`, hexadecimal floats and
digit-group underscores are not modelled; the result is the exact
rational value of the literal.) -/
def pyFloat (s : String) : Option Rat :=
  let afterSign : List Char × Rat :=
    match s.data with
    | '+' :: rest => (rest, 1)
    | '-' :: rest => (rest, -1)
    | l => (l, 1)
  let l := afterSign.1
  let sign := afterSign.2
  let intDigits := l.takeWhile Char.isDigit
  let l1 := l.dropWhile Char.isDigit
  let hasDot : Bool := match l1 with | '.' :: _ => true | _ => false
  let l2 := if hasDot then l1.drop 1 else l1
  let fracDigits := if hasDot then l2.takeWhile Char.isDigit else []
  let l3 := if hasDot then l2.dropWhile Char.isDigit else l2
  if intDigits.length + fracDigits.length = 0 then none
  else
    let mantissa : Rat :=
      sign * ((digitsVal intDigits : Rat) +
        (digitsVal fracDigits : Rat) / ((10 : Rat) ^ fracDigits.length))
    match l3 with
    | [] => some mantissa
    | e :: l4 =>
      if e = 'e' ∨ e = 'E' then
        let expSign : List Char × Int :=
          match l4 with
          | '+' :: rest => (rest, 1)
          | '-' :: rest => (rest, -1)
          | l' => (l', 1)
        let expDigits := expSign.1.takeWhile Char.isDigit
        let l5 := expSign.1.dropWhile Char.isDigit
        if expDigits = [] ∨ l5 ≠ [] then none
        else some (mantissa * (10 : Rat) ^ (expSign.2 * (digitsVal expDigits : Int)))
      else none

/-- `parse_br_number` from `src/app.py`: clean a Brazilian-formatted
number (`num_str.replace(".", "").replace(",", ".").strip()`) and try to
parse it as a float, returning `none` where the Python code catches the
exception and returns `None`.  The function is total: the `try/except`
is modelled by `pyFloat` already returning an `Option`. -/
def parse_br_number (num_str : String) : Option Rat :=
  let clean := pyStrip (pyReplace1 (pyReplace1 num_str '.' "") ',' ".")
  pyFloat clean

/-! ## Matching engine (modelled from the spec)

The reconciliation matching engine (candidate generator, greedy
resolver, divergence detector, cleaning step) described in spec.md
§3–§4 is not part of the provided sources, which contain only the
excluded credit-opinion module.  The definitions below are therefore
modelled from the spec. -/

/-- Modelled from the spec (§3, Normalized Record Model): one cleaned
ledger row.  Row ids are positional: a ledger is a `List LedgerRecord`
and a row's id is its 0-based index (the arena-style identity of §9).
`date` is a calendar date encoded as a day number, `amount` the positive
decimal value, `amount_minor` the integer minor units. -/
structure LedgerRecord where
  date : Int
  debit_account : String
  credit_account : String
  amount : Rat
  amount_minor : Int
  description : String
deriving DecidableEq

/-- Modelled from the spec (§4.1): the three tunable parameters of the
candidate generator. -/
structure Params where
  date_window_days : Nat
  amount_tolerance_minor : Nat
  description_similarity_threshold : Rat
deriving DecidableEq

/-- Default parameter values of §6: window 7 days, tolerance 1.00
currency unit = 100 minor units, similarity threshold 0.62. -/
def defaultParams : Params :=
  { date_window_days := 7, amount_tolerance_minor := 100,
    description_similarity_threshold := 62 / 100 }

/-- Modelled from the spec (§3, Glossary): the five match tiers plus the
two synthetic residual tiers. -/
inductive Tier where
  | exact
  | sameAmountNearDate
  | sameDateNearAmount
  | nearAmountNearDate
  | fuzzy
  | onlyInA
  | onlyInB
deriving DecidableEq

/-- Modelled from the spec (§3, MatchCandidate): an ordered pair of row
ids `(a, b)` into the two ledgers, tagged with a tier, a score, and the
diagnostic fields (day distance, absolute amount difference, description
similarity). -/
structure MatchCandidate where
  a : Nat
  b : Nat
  tier : Tier
  score : Rat
  dayDist : Nat
  amountDiff : Rat
  descSim : Rat
deriving DecidableEq

/-- Modelled from the spec (§3, ResolvedSet): the 7-key terminal
artifact — an ordered list of committed matches per match tier, and the
two residual tiers as ordered lists of row ids. -/
structure ResolvedSet where
  exact : List MatchCandidate
  sameAmountNearDate : List MatchCandidate
  sameDateNearAmount : List MatchCandidate
  nearAmountNearDate : List MatchCandidate
  fuzzy : List MatchCandidate
  onlyInA : List Nat
  onlyInB : List Nat
deriving DecidableEq

/-! ### Description similarity (spec §4.1) -/

/-- Strip the diacritic of a Latin-1 accented letter (both cases),
leaving every other character unchanged. -/
def stripAccent (c : Char) : Char :=
  if c = 'á' ∨ c = 'à' ∨ c = 'â' ∨ c = 'ã' ∨ c = 'ä' then 'a'
  else if c = 'é' ∨ c = 'è' ∨ c = 'ê' ∨ c = 'ë' then 'e'
  else if c = 'í' ∨ c = 'ì' ∨ c = 'î' ∨ c = 'ï' then 'i'
  else if c = 'ó' ∨ c = 'ò' ∨ c = 'ô' ∨ c = 'õ' ∨ c = 'ö' then 'o'
  else if c = 'ú' ∨ c = 'ù' ∨ c = 'û' ∨ c = 'ü' then 'u'
  else if c = 'ç' then 'c'
  else if c = 'ñ' then 'n'
  else c

/-- A word character after normalization: a lowercase ASCII letter or a
digit. -/
def isWordChar (c : Char) : Bool :=
  ('a' ≤ c ∧ c ≤ 'z') ∨ ('0' ≤ c ∧ c ≤ '9')

/-- Modelled from the spec (§4.1, `similarity`): text normalization —
strip diacritics, lowercase, and collapse runs of non-word characters
and whitespace into single spaces with no leading/trailing space. -/
def normalizeText (s : String) : String :=
  let mapped := s.data.map (fun c =>
    let c' := stripAccent (pyLowerChar c)
    if isWordChar c' then c' else ' ')
  ⟨List.intercalate [' '] ((mapped.splitOn ' ').filter (· ≠ []))⟩

/-- Fuel-driven longest-common-subsequence length of two character
lists; `fuel = total length` is always enough because every recursive
call shortens the combined input. -/
def lcsFuel : Nat → List Char → List Char → Nat
  | 0, _, _ => 0
  | _ + 1, [], _ => 0
  | _ + 1, _, [] => 0
  | fuel + 1, a :: as, b :: bs =>
    if a = b then 1 + lcsFuel fuel as bs
    else max (lcsFuel fuel (a :: as) bs) (lcsFuel fuel as bs)

/-- Total length of the matching blocks shared by two character lists,
computed as their longest common subsequence. -/
def matchingLen (a b : List Char) : Nat :=
  lcsFuel (a.length + b.length) a b

/-- Modelled from the spec (§4.1, `similarity`): normalize both texts
and return the ratio `2·M / (|a| + |b|)` of matching-block length to
combined length, in `[0,1]`; two empty normalized texts compare as
identical (ratio 1). -/
def similarity (sa sb : String) : Rat :=
  let a := (normalizeText sa).data
  let b := (normalizeText sb).data
  if a.length + b.length = 0 then 1
  else (2 * matchingLen a b : Rat) / ((a.length : Rat) + (b.length : Rat))

/-! ### Candidate generation (spec §4.1) -/

/-- Day distance between two records. -/
def dayDist (x y : LedgerRecord) : Nat :=
  (x.date - y.date).natAbs

/-- Absolute difference of the two `amount_minor` values (minor units),
used by every tolerance filter. -/
def minorDiff (x y : LedgerRecord) : Nat :=
  (x.amount_minor - y.amount_minor).natAbs

/-- Absolute difference of the two decimal `amount` values, used only
inside score formulas (spec §4.1). -/
def amtDiff (x y : LedgerRecord) : Rat :=
  |x.amount - y.amount|

/-- Modelled from the spec (§4.1): unordered {debit, credit} account
pair equality — a 2-element set comparison, so a debit/credit swap
between the two ledgers still counts as equal. -/
def accountPairEqb (x y : LedgerRecord) : Bool :=
  (x.debit_account = y.debit_account ∧ x.credit_account = y.credit_account) ∨
  (x.debit_account = y.credit_account ∧ x.credit_account = y.debit_account)

/-- Exact-tier condition: same date, same `amount_minor`, same unordered
account pair. -/
def exactCond (_p : Params) (x y : LedgerRecord) : Bool :=
  x.date = y.date ∧ x.amount_minor = y.amount_minor ∧ accountPairEqb x y

/-- Same-amount-near-date condition: same `amount_minor`, same unordered
account pair, `0 < day_distance ≤ date_window_days`. -/
def sameAmountNearDateCond (p : Params) (x y : LedgerRecord) : Bool :=
  x.amount_minor = y.amount_minor ∧ accountPairEqb x y ∧
  0 < dayDist x y ∧ dayDist x y ≤ p.date_window_days

/-- Same-date-near-amount condition: same date, same unordered account
pair, `0 < amount_minor_diff ≤ amount_tolerance_minor`. -/
def sameDateNearAmountCond (p : Params) (x y : LedgerRecord) : Bool :=
  x.date = y.date ∧ accountPairEqb x y ∧
  0 < minorDiff x y ∧ minorDiff x y ≤ p.amount_tolerance_minor

/-- Near-amount-near-date condition: same unordered account pair with
both distances strictly positive and within tolerance. -/
def nearAmountNearDateCond (p : Params) (x y : LedgerRecord) : Bool :=
  accountPairEqb x y ∧
  0 < dayDist x y ∧ dayDist x y ≤ p.date_window_days ∧
  0 < minorDiff x y ∧ minorDiff x y ≤ p.amount_tolerance_minor

/-- Fuzzy condition: same unordered account pair, distances within
tolerance (zero allowed), similarity at or above the threshold. -/
def fuzzyCond (p : Params) (x y : LedgerRecord) : Bool :=
  accountPairEqb x y ∧
  dayDist x y ≤ p.date_window_days ∧ minorDiff x y ≤ p.amount_tolerance_minor ∧
  p.description_similarity_threshold ≤ similarity x.description y.description

/-- Score formula of each tier (spec §4.1 table); the residual tiers
carry score 0. -/
def tierScore (t : Tier) (x y : LedgerRecord) : Rat :=
  let dd : Rat := (dayDist x y : Rat)
  let ad : Rat := amtDiff x y
  let sim : Rat := similarity x.description y.description
  match t with
  | .exact => 3 + sim
  | .sameAmountNearDate => 1 / (1 + dd) + 1 / (1 + ad) + sim
  | .sameDateNearAmount => 1 / (1 + ad) + 3 / 2 + sim
  | .nearAmountNearDate => 1 / (1 + dd) + 1 / (1 + ad)
  | .fuzzy => 1 / (1 + dd) + 1 / (1 + ad) + sim
  | .onlyInA => 0
  | .onlyInB => 0

/-- Build the candidate for row indices `(i, j)` holding records
`(x, y)`, with its tier tag, score and diagnostic fields. -/
def mkCand (t : Tier) (i j : Nat) (x y : LedgerRecord) : MatchCandidate :=
  { a := i, b := j, tier := t, score := tierScore t x y,
    dayDist := dayDist x y, amountDiff := amtDiff x y,
    descSim := similarity x.description y.description }

/-- Enumerate all (A-row, B-row) pairs in original order and keep the
ones satisfying the tier condition.  This is the original enumeration
order that breaks score ties (spec §4.1). -/
def genUnsorted (cond : LedgerRecord → LedgerRecord → Bool) (t : Tier)
    (A B : List LedgerRecord) : List MatchCandidate :=
  A.enum.flatMap (fun ix =>
    B.enum.filterMap (fun jy =>
      if cond ix.2 jy.2 then some (mkCand t ix.1 jy.1 ix.2 jy.2) else none))

/-- Stable insertion: `pre d c = true` means an already-placed `d` stays
in front of the newly inserted `c`. -/
def insertBy (pre : α → α → Bool) (c : α) : List α → List α
  | [] => [c]
  | d :: rest => if pre d c then d :: insertBy pre c rest else c :: d :: rest

/-- Stable insertion sort: an element is inserted in front of the first
already-placed element that does not strictly precede it, so ties keep
the original enumeration order. -/
def sortBy (pre : α → α → Bool) : List α → List α
  | [] => []
  | c :: rest => insertBy pre c (sortBy pre rest)

/-- Descending-score precedence for the per-tier stable sort: an earlier
candidate stays in front iff its score is strictly larger. -/
def scoreBefore (d c : MatchCandidate) : Bool :=
  c.score < d.score

/-- A tier's candidate list: enumerate, filter, stable-sort by
descending score (spec §4.1). -/
def genTier (cond : LedgerRecord → LedgerRecord → Bool) (t : Tier)
    (A B : List LedgerRecord) : List MatchCandidate :=
  sortBy scoreBefore (genUnsorted cond t A B)

/-- The exact-tier candidate list. -/
def exactCandidates (p : Params) (A B : List LedgerRecord) : List MatchCandidate :=
  genTier (exactCond p) .exact A B

/-- The same-amount-near-date candidate list. -/
def sameAmountNearDateCandidates (p : Params) (A B : List LedgerRecord) : List MatchCandidate :=
  genTier (sameAmountNearDateCond p) .sameAmountNearDate A B

/-- The same-date-near-amount candidate list. -/
def sameDateNearAmountCandidates (p : Params) (A B : List LedgerRecord) : List MatchCandidate :=
  genTier (sameDateNearAmountCond p) .sameDateNearAmount A B

/-- The near-amount-near-date candidate list. -/
def nearAmountNearDateCandidates (p : Params) (A B : List LedgerRecord) : List MatchCandidate :=
  genTier (nearAmountNearDateCond p) .nearAmountNearDate A B

/-- The fuzzy candidate list. -/
def fuzzyCandidates (p : Params) (A B : List LedgerRecord) : List MatchCandidate :=
  genTier (fuzzyCond p) .fuzzy A B

/-! ### Greedy resolver (spec §4.2) -/

/-- State and output of one tier pass: the committed candidates of the
tier in walk order, and the updated used-id sets of both ledgers. -/
structure TierResult where
  committed : List MatchCandidate
  usedA : List Nat
  usedB : List Nat
deriving DecidableEq

/-- Modelled from the spec (§4.2): walk a tier's score-sorted candidate
list in order; commit a candidate iff neither of its row ids has been
committed by this or an earlier tier, and mark both ids as used for the
remainder of the run. -/
def commitTier : List MatchCandidate → List Nat → List Nat → TierResult
  | [], uA, uB => ⟨[], uA, uB⟩
  | c :: rest, uA, uB =>
    if c.a ∈ uA ∨ c.b ∈ uB then
      commitTier rest uA uB
    else
      let r := commitTier rest (c.a :: uA) (c.b :: uB)
      ⟨c :: r.committed, r.usedA, r.usedB⟩

/-- Modelled from the spec (§4.2): run the five tier passes in the fixed
priority order exact, same-amount-near-date, same-date-near-amount,
near-amount-near-date, fuzzy, threading the used-id sets through, then
compute the two residual tiers as the unclaimed row ids in ascending
order. -/
def resolvedFrom (L1 L2 L3 L4 L5 : List MatchCandidate) (nA nB : Nat) : ResolvedSet :=
  let r1 := commitTier L1 [] []
  let r2 := commitTier L2 r1.usedA r1.usedB
  let r3 := commitTier L3 r2.usedA r2.usedB
  let r4 := commitTier L4 r3.usedA r3.usedB
  let r5 := commitTier L5 r4.usedA r4.usedB
  { exact := r1.committed
    sameAmountNearDate := r2.committed
    sameDateNearAmount := r3.committed
    nearAmountNearDate := r4.committed
    fuzzy := r5.committed
    onlyInA := (List.range nA).filter (fun i => decide (i ∉ r5.usedA))
    onlyInB := (List.range nB).filter (fun j => decide (j ∉ r5.usedB)) }

/-- Modelled from the spec (§2, §4.1–§4.2): the full reconciliation
pipeline from the two cleaned ledgers and the tunable parameters to the
terminal `ResolvedSet` — generate the five sorted candidate lists and
resolve them greedily. -/
def resolve (p : Params) (A B : List LedgerRecord) : ResolvedSet :=
  resolvedFrom
    (exactCandidates p A B)
    (sameAmountNearDateCandidates p A B)
    (sameDateNearAmountCandidates p A B)
    (nearAmountNearDateCandidates p A B)
    (fuzzyCandidates p A B)
    A.length B.length

/-! ### Cleaning step (spec §3, §6, §7) -/

/-- Modelled from the spec (§6): one raw ledger row as handed over by
ingestion — date parsed or null, amount parsed or null, accounts already
reduced to digit-only strings (possibly empty when unparseable). -/
structure RawRow where
  date : Option Int
  debit_account : String
  credit_account : String
  amount : Option Rat
  description : String
deriving DecidableEq

/-- Modelled from the spec (§7): a row is usable iff its date parsed,
its amount parsed to a positive value, and both accounts are non-empty
after digit extraction. -/
def validRow (r : RawRow) : Bool :=
  r.date.isSome &&
  (match r.amount with | some a => decide (0 < a) | none => false) &&
  (r.debit_account ≠ "" : Bool) && (r.credit_account ≠ "" : Bool)

/-- Turn a usable raw row into a `LedgerRecord`; `amount_minor` is the
amount times 100 rounded to the nearest integer (spec §3). -/
def toRecord (r : RawRow) : LedgerRecord :=
  { date := r.date.getD 0
    debit_account := r.debit_account
    credit_account := r.credit_account
    amount := r.amount.getD 0
    amount_minor := round ((r.amount.getD 0) * 100)
    description := r.description }

/-- Modelled from the spec (§7): silently drop every malformed row
before matching begins and assign positional ids to the survivors.  The
function is total — filtering is a policy, not an error. -/
def cleanLedger (rows : List RawRow) : List LedgerRecord :=
  (rows.filter validRow).map toRecord

/-! ### Divergence detector (spec §4.3) -/

/-- Modelled from the spec (§4.3): a residual row flattened to the
fields the detector needs. -/
structure ResidualRow where
  id : Nat
  debit_account : String
  credit_account : String
  date : Int
  amount : Rat
deriving DecidableEq

/-- Round a decimal amount to 2 decimals. -/
def round2 (q : Rat) : Rat :=
  (round (q * 100) : Rat) / 100

/-- The grouping key of the divergence detector: (date, amount rounded
to 2 decimals). -/
def dkey (r : ResidualRow) : Int × Rat :=
  (r.date, round2 r.amount)

/-- One divergence pair: the key, the unique residual rows of both
sides, and the two leg-equality flags. -/
structure DivPair where
  date : Int
  amount : Rat
  aRow : ResidualRow
  bRow : ResidualRow
  debitEq : Bool
  creditEq : Bool
deriving DecidableEq

/-- Ascending (date, amount, A-row-id) precedence for the deterministic
final sort of the divergence table. -/
def divBefore (d c : DivPair) : Bool :=
  d.date < c.date ∨
  (d.date = c.date ∧ (d.amount < c.amount ∨
    (d.amount = c.amount ∧ d.aRow.id < c.aRow.id)))

/-- Modelled from the spec (§4.3): group both residual sets by
(date, amount rounded to 2 decimals); for every key whose A-side and
B-side groups each hold exactly one row, join the two rows, flag the
debit/credit leg agreement, keep the pair only when at least one leg
disagrees, and sort the result by (date, amount, A-row id). -/
def divergences (rA rB : List ResidualRow) : List DivPair :=
  let pairs := ((rA.map dkey).dedup).filterMap (fun k =>
    match rA.filter (fun r => decide (dkey r = k)),
          rB.filter (fun r => decide (dkey r = k)) with
    | [a], [b] =>
      if a.debit_account = b.debit_account ∧ a.credit_account = b.credit_account
      then none
      else some { date := k.1, amount := k.2, aRow := a, bRow := b,
                  debitEq := a.debit_account = b.debit_account,
                  creditEq := a.credit_account = b.credit_account }
    | _, _ => none)
  sortBy divBefore pairs

/-! ## Claim-side cleaning steps for `parse_br_number` (C9's wording) -/

/-- C9's first cleaning step, as worded: remove all `'.'` characters. -/
def removeDots (s : String) : String :=
  ⟨s.data.filter (fun c => decide (c ≠ '.'))⟩

/-- C9's second cleaning step, as worded: replace every `','` with `'.'`. -/
def commaToDot (s : String) : String :=
  ⟨s.data.map (fun c => if c = ',' then '.' else c)⟩

/-! ## Concrete inputs used by the witness theorems -/

/-- A ledger record used by witnesses: 2024-03-01 (day 0), accounts
111/222, amount 500.00. -/
def wRecA : LedgerRecord :=
  { date := 0, debit_account := "111", credit_account := "222",
    amount := 500, amount_minor := 50000, description := "pagamento" }

/-- A record identical to `wRecA` in date, amount and accounts. -/
def wRecB : LedgerRecord :=
  { date := 0, debit_account := "111", credit_account := "222",
    amount := 500, amount_minor := 50000, description := "pagamento" }

/-- A record with the account legs swapped relative to `wSwapA`. -/
def wSwapA : LedgerRecord :=
  { date := 3, debit_account := "100", credit_account := "200",
    amount := 250, amount_minor := 25000, description := "liquidacao" }

/-- The swapped-leg counterpart of `wSwapA`. -/
def wSwapB : LedgerRecord :=
  { date := 3, debit_account := "200", credit_account := "100",
    amount := 250, amount_minor := 25000, description := "liquidacao" }

/-- A residual-A row for the divergence witness. -/
def wResA : ResidualRow :=
  { id := 1, debit_account := "1", credit_account := "2", date := 5, amount := 100 }

/-- A residual-B row sharing `wResA`'s key but with a different debit leg. -/
def wResB : ResidualRow :=
  { id := 9, debit_account := "3", credit_account := "2", date := 5, amount := 100 }

/-- The divergence pair emitted for `wResA`/`wResB`. -/
def wDivPair : DivPair :=
  { date := 5, amount := 100, aRow := wResA, bRow := wResB,
    debitEq := false, creditEq := true }

/-- A well-formed raw row for the cleaning witness. -/
def wRawGood : RawRow :=
  { date := some 1, debit_account := "1", credit_account := "2",
    amount := some 10, description := "ok" }

/-- A malformed raw row (unparseable amount) for the cleaning witness. -/
def wRawBad : RawRow :=
  { date := some 1, debit_account := "1", credit_account := "2",
    amount := none, description := "bad" }

/-- The committed A-side row ids of a resolved set, across the five
match tiers in priority order. -/
def committedA (R : ResolvedSet) : List Nat :=
  (R.exact ++ R.sameAmountNearDate ++ R.sameDateNearAmount ++
    R.nearAmountNearDate ++ R.fuzzy).map (fun c => c.a)

/-- The committed B-side row ids of a resolved set, across the five
match tiers in priority order. -/
def committedB (R : ResolvedSet) : List Nat :=
  (R.exact ++ R.sameAmountNearDate ++ R.sameDateNearAmount ++
    R.nearAmountNearDate ++ R.fuzzy).map (fun c => c.b)

/-! ## Helper lemmas for the app.py string functions -/

theorem charOfNat_toNat (n : Nat) (h : n < 55296) : (Char.ofNat n).toNat = n := by
  rw [Char.ofNat, dif_pos (Or.inl h)]
  simp [Char.ofNatAux, Char.toNat, UInt32.toNat, BitVec.toNat_ofNatLt]

theorem isSpaceChar_false_of_ge (c : Char) (h : 33 ≤ c.toNat) :
    isSpaceChar c = false := by
  simp only [isSpaceChar, Bool.or_eq_false_iff, decide_eq_false_iff_not]
  refine ⟨⟨⟨⟨⟨?_, ?_⟩, ?_⟩, ?_⟩, ?_⟩, ?_⟩ <;>
    · intro hEq
      rw [hEq] at h
      revert h
      decide

theorem isSpaceChar_pyLowerChar (c : Char) :
    isSpaceChar (pyLowerChar c) = isSpaceChar c := by
  unfold pyLowerChar
  by_cases h1 : 'A' ≤ c ∧ c ≤ 'Z'
  · have ha : 65 ≤ c.toNat := Char.le_def.mp h1.1
    have hb : c.toNat ≤ 90 := Char.le_def.mp h1.2
    rw [if_pos h1]
    rw [isSpaceChar_false_of_ge c (by omega),
      isSpaceChar_false_of_ge _ (by rw [charOfNat_toNat _ (by omega)]; omega)]
  · rw [if_neg h1]
    by_cases h2 : 'À' ≤ c ∧ c ≤ 'Þ' ∧ c ≠ '×'
    · have ha : 192 ≤ c.toNat := Char.le_def.mp h2.1
      have hb : c.toNat ≤ 222 := Char.le_def.mp h2.2.1
      rw [if_pos h2]
      rw [isSpaceChar_false_of_ge c (by omega),
        isSpaceChar_false_of_ge _ (by rw [charOfNat_toNat _ (by omega)]; omega)]
    · rw [if_neg h2]

theorem pyStrip_eq_empty_iff (s : String) :
    pyStrip s = "" ↔ s.data.all isSpaceChar = true := by
  unfold pyStrip
  rw [show ("" : String) = ⟨[]⟩ from rfl, String.ext_iff]
  show ((s.data.dropWhile isSpaceChar).reverse.dropWhile isSpaceChar).reverse = [] ↔ _
  rw [List.reverse_eq_nil_iff, List.dropWhile_eq_nil_iff, List.all_eq_true]
  constructor
  · intro h x hx
    rcases List.mem_append.mp
        ((List.takeWhile_append_dropWhile (p := isSpaceChar) (l := s.data)) ▸ hx) with h' | h'
    · exact List.mem_takeWhile_imp h'
    · exact h x (List.mem_reverse.mpr h')
  · intro h x hx
    exact h x ((List.dropWhile_sublist _).subset (List.mem_reverse.mp hx))

theorem pyLower_all_space (s : String) :
    (pyLower s).data.all isSpaceChar = s.data.all isSpaceChar := by
  unfold pyLower
  show (s.data.map pyLowerChar).all isSpaceChar = _
  rw [List.all_map]
  congr 1
  funext c
  simp [Function.comp, isSpaceChar_pyLowerChar]

theorem base_ne_insufficient (b : String)
    (hb : b = positiveBase ∨ b = negativeBase ∨ b = mixedBase) (cat : String) :
    b ++ complementoFor cat ≠ insufficientMsg := by
  unfold complementoFor
  rcases hb with rfl | rfl | rfl <;> split_ifs <;> decide

theorem flatMap_single_nil (l : List Char) (p : Char) :
    l.flatMap (fun c => if c = p then ([] : List Char) else [c]) =
      l.filter (fun c => decide (c ≠ p)) := by
  induction l with
  | nil => rfl
  | cons c rest ih => by_cases hc : c = p <;> simp [hc, ih]

theorem flatMap_single_one (l : List Char) (p q : Char) :
    l.flatMap (fun c => if c = p then [q] else [c]) =
      l.map (fun c => if c = p then q else c) := by
  induction l with
  | nil => rfl
  | cons c rest ih => by_cases hc : c = p <;> simp [hc, ih]

/-! ## Claim theorems C8–C10 (src/app.py) -/

/-- **C8.** For every input `percent`, `risk_color` returns exactly one of
the four fixed labels, classifying by: green iff `percent ≥ 80`, yellow
iff `60 ≤ percent < 80`, orange iff `40 ≤ percent < 60`, and red iff
`percent < 40`, so the four branches partition the input line. -/
theorem risk_color_partition (percent : Rat) :
    (risk_color percent = "🟢 Verde (risco baixo)" ↔ 80 ≤ percent) ∧
    (risk_color percent = "🟡 Amarelo (risco moderado)" ↔ 60 ≤ percent ∧ percent < 80) ∧
    (risk_color percent = "🟠 Laranja (risco elevado)" ↔ 40 ≤ percent ∧ percent < 60) ∧
    (risk_color percent = "🔴 Vermelho (risco crítico)" ↔ percent < 40) ∧
    (risk_color percent = "🟢 Verde (risco baixo)" ∨
     risk_color percent = "🟡 Amarelo (risco moderado)" ∨
     risk_color percent = "🟠 Laranja (risco elevado)" ∨
     risk_color percent = "🔴 Vermelho (risco crítico)") := by
  unfold risk_color
  rcases le_or_lt 80 percent with h80 | h80
  · rw [if_pos h80]
    exact ⟨⟨fun _ => h80, fun _ => rfl⟩,
      ⟨fun hh => absurd hh (by decide), fun hh => absurd h80 (not_le.mpr hh.2)⟩,
      ⟨fun hh => absurd hh (by decide),
        fun hh => absurd h80 (not_le.mpr (lt_of_lt_of_le hh.2 (by norm_num)))⟩,
      ⟨fun hh => absurd hh (by decide),
        fun hh => absurd h80 (not_le.mpr (lt_of_lt_of_le hh (by norm_num)))⟩,
      Or.inl rfl⟩
  · rw [if_neg (not_le.mpr h80)]
    rcases le_or_lt 60 percent with h60 | h60
    · rw [if_pos ⟨h60, h80⟩]
      exact ⟨⟨fun hh => absurd hh (by decide), fun hh => absurd h80 (not_lt.mpr hh)⟩,
        ⟨fun _ => ⟨h60, h80⟩, fun _ => rfl⟩,
        ⟨fun hh => absurd hh (by decide), fun hh => absurd h60 (not_le.mpr hh.2)⟩,
        ⟨fun hh => absurd hh (by decide),
          fun hh => absurd h60 (not_le.mpr (lt_of_lt_of_le hh (by norm_num)))⟩,
        Or.inr (Or.inl rfl)⟩
    · rw [if_neg (fun hh => absurd hh.1 (not_le.mpr h60))]
      rcases le_or_lt 40 percent with h40 | h40
      · rw [if_pos ⟨h40, h60⟩]
        exact ⟨⟨fun hh => absurd hh (by decide),
            fun hh => absurd h60 (not_lt.mpr (le_trans (by norm_num) hh))⟩,
          ⟨fun hh => absurd hh (by decide), fun hh => absurd h60 (not_lt.mpr hh.1)⟩,
          ⟨fun _ => ⟨h40, h60⟩, fun _ => rfl⟩,
          ⟨fun hh => absurd hh (by decide), fun hh => absurd h40 (not_le.mpr hh)⟩,
          Or.inr (Or.inr (Or.inl rfl))⟩
      · rw [if_neg (fun hh => absurd hh.1 (not_le.mpr h40))]
        exact ⟨⟨fun hh => absurd hh (by decide),
            fun hh => absurd h40 (not_lt.mpr (le_trans (by norm_num) hh))⟩,
          ⟨fun hh => absurd hh (by decide),
            fun hh => absurd h40 (not_lt.mpr (le_trans (by norm_num) hh.1))⟩,
          ⟨fun hh => absurd hh (by decide), fun hh => absurd h40 (not_lt.mpr hh.1)⟩,
          ⟨fun _ => h40, fun _ => rfl⟩,
          Or.inr (Or.inr (Or.inr rfl))⟩

/-- **C9.** For every input string, `parse_br_number` never raises (it is
a total function into `Option`): it removes all `'.'` characters,
replaces `','` with `'.'`, strips whitespace, and returns the value when
the cleaned string parses as a number and `none` otherwise — i.e. it
agrees everywhere with the claim-side composition
`pyFloat ∘ pyStrip ∘ commaToDot ∘ removeDots`. -/
theorem parse_br_number_spec (s : String) :
    parse_br_number s = pyFloat (pyStrip (commaToDot (removeDots s))) := by
  unfold parse_br_number
  have h1 : pyReplace1 s '.' "" = removeDots s := by
    unfold pyReplace1 removeDots
    exact congrArg String.mk (flatMap_single_nil s.data '.')
  have h2 : pyReplace1 (removeDots s) ',' "." = commaToDot (removeDots s) := by
    unfold pyReplace1 commaToDot
    exact congrArg String.mk (flatMap_single_one (removeDots s).data ',' '.')
  rw [h1, h2]

/-- **C10.** For every text and category, `analyze_text_block` returns the
insufficient-information sentence only when the text is empty or
whitespace-only; and a text that is not empty/whitespace-only with zero
positive-keyword and zero negative-keyword occurrences falls into the
balanced/mixed branch, not the insufficient-information branch. -/
theorem analyze_text_block_branches (text category : String) :
    (analyze_text_block text category = insufficientMsg →
      text.data.all isSpaceChar = true) ∧
    (text.data.all isSpaceChar ≠ true →
      posScore (pyLower text) = 0 → negScore (pyLower text) = 0 →
      analyze_text_block text category = mixedBase ++ complementoFor category) := by
  constructor
  · intro h
    unfold analyze_text_block at h
    by_cases hc : posScore (pyLower text) = 0 ∧ negScore (pyLower text) = 0 ∧
        pyStrip (pyLower text) = ""
    · have := (pyStrip_eq_empty_iff (pyLower text)).mp hc.2.2
      rwa [pyLower_all_space] at this
    · rw [if_neg hc] at h
      exact absurd h (base_ne_insufficient _ (by split_ifs <;> simp) category)
  · intro hws hp hn
    unfold analyze_text_block
    have hne : ¬(posScore (pyLower text) = 0 ∧ negScore (pyLower text) = 0 ∧
        pyStrip (pyLower text) = "") := by
      intro hc
      exact hws (by rw [← pyLower_all_space]; exact (pyStrip_eq_empty_iff _).mp hc.2.2)
    rw [if_neg hne, hp, hn]
    simp

/-- Witness for C10: the three-letter text `"xyz"` is not whitespace-only,
contains no keyword of either list, and lands in the balanced/mixed
branch for the category `"Capital"`. -/
theorem analyze_text_block_branches_witness :
    analyze_text_block "xyz" "Capital" = mixedBase ++ complementoFor "Capital" :=
  (analyze_text_block_branches "xyz" "Capital").2 (by decide) (by decide) (by decide)

/-! ## Helper lemmas for the matching engine -/

theorem insertBy_perm (pre : α → α → Bool) (c : α) (l : List α) :
    (insertBy pre c l).Perm (c :: l) := by
  induction l with
  | nil => exact List.Perm.refl _
  | cons d rest ih =>
    unfold insertBy
    by_cases hd : pre d c
    · rw [if_pos hd]
      exact (ih.cons d).trans (List.Perm.swap c d rest)
    · rw [if_neg hd]

theorem sortBy_perm (pre : α → α → Bool) (l : List α) :
    (sortBy pre l).Perm l := by
  induction l with
  | nil => exact List.Perm.refl _
  | cons c rest ih => exact (insertBy_perm pre c (sortBy pre rest)).trans (ih.cons c)

theorem mem_sortBy {pre : α → α → Bool} {x : α} {l : List α} :
    x ∈ sortBy pre l ↔ x ∈ l :=
  (sortBy_perm pre l).mem_iff

theorem mem_genUnsorted {cond : LedgerRecord → LedgerRecord → Bool} {t : Tier}
    {A B : List LedgerRecord} {c : MatchCandidate} :
    c ∈ genUnsorted cond t A B ↔
      ∃ i x j y, A[i]? = some x ∧ B[j]? = some y ∧ cond x y = true ∧
        c = mkCand t i j x y := by
  unfold genUnsorted
  simp only [List.mem_flatMap, List.mem_filterMap, List.mem_enum_iff_getElem?]
  constructor
  · rintro ⟨⟨i, x⟩, hix, ⟨j, y⟩, hjy, hc⟩
    by_cases hcond : cond x y
    · rw [if_pos hcond] at hc
      exact ⟨i, x, j, y, hix, hjy, hcond, (Option.some_inj.mp hc).symm⟩
    · rw [if_neg hcond] at hc
      exact absurd hc (by simp)
  · rintro ⟨i, x, j, y, hix, hjy, hcond, rfl⟩
    exact ⟨⟨i, x⟩, hix, ⟨j, y⟩, hjy, by rw [if_pos hcond]⟩

theorem mem_genTier {cond : LedgerRecord → LedgerRecord → Bool} {t : Tier}
    {A B : List LedgerRecord} {c : MatchCandidate} :
    c ∈ genTier cond t A B ↔
      ∃ i x j y, A[i]? = some x ∧ B[j]? = some y ∧ cond x y = true ∧
        c = mkCand t i j x y := by
  unfold genTier
  rw [mem_sortBy, mem_genUnsorted]

theorem genTier_bounds {cond : LedgerRecord → LedgerRecord → Bool} {t : Tier}
    {A B : List LedgerRecord} {c : MatchCandidate} (h : c ∈ genTier cond t A B) :
    c.a < A.length ∧ c.b < B.length := by
  obtain ⟨i, x, j, y, hix, hjy, _, rfl⟩ := mem_genTier.mp h
  obtain ⟨hi, -⟩ := List.getElem?_eq_some.mp hix
  obtain ⟨hj, -⟩ := List.getElem?_eq_some.mp hjy
  exact ⟨hi, hj⟩

theorem commitTier_usedA (l : List MatchCandidate) (uA uB : List Nat) :
    (commitTier l uA uB).usedA =
      ((commitTier l uA uB).committed.map (fun c => c.a)).reverse ++ uA := by
  induction l generalizing uA uB with
  | nil => rfl
  | cons c rest ih =>
    unfold commitTier
    by_cases hc : c.a ∈ uA ∨ c.b ∈ uB
    · rw [if_pos hc]
      exact ih uA uB
    · rw [if_neg hc]
      show (commitTier rest (c.a :: uA) (c.b :: uB)).usedA =
        ((c :: (commitTier rest (c.a :: uA) (c.b :: uB)).committed).map
          (fun c => c.a)).reverse ++ uA
      rw [ih (c.a :: uA) (c.b :: uB), List.map_cons, List.reverse_cons,
        List.append_assoc, List.singleton_append]

theorem commitTier_usedB (l : List MatchCandidate) (uA uB : List Nat) :
    (commitTier l uA uB).usedB =
      ((commitTier l uA uB).committed.map (fun c => c.b)).reverse ++ uB := by
  induction l generalizing uA uB with
  | nil => rfl
  | cons c rest ih =>
    unfold commitTier
    by_cases hc : c.a ∈ uA ∨ c.b ∈ uB
    · rw [if_pos hc]
      exact ih uA uB
    · rw [if_neg hc]
      show (commitTier rest (c.a :: uA) (c.b :: uB)).usedB =
        ((c :: (commitTier rest (c.a :: uA) (c.b :: uB)).committed).map
          (fun c => c.b)).reverse ++ uB
      rw [ih (c.a :: uA) (c.b :: uB), List.map_cons, List.reverse_cons,
        List.append_assoc, List.singleton_append]

theorem commitTier_committed_subset {l : List MatchCandidate} {uA uB : List Nat}
    {c : MatchCandidate} (h : c ∈ (commitTier l uA uB).committed) : c ∈ l := by
  induction l generalizing uA uB with
  | nil => exact absurd h (by simp [commitTier])
  | cons d rest ih =>
    unfold commitTier at h
    by_cases hd : d.a ∈ uA ∨ d.b ∈ uB
    · rw [if_pos hd] at h
      exact List.mem_cons_of_mem d (ih h)
    · rw [if_neg hd] at h
      rcases List.mem_cons.mp h with rfl | h'
      · exact List.mem_cons_self _ _
      · exact List.mem_cons_of_mem d (ih h')

theorem commitTier_usedA_nodup {l : List MatchCandidate} {uA uB : List Nat}
    (hA : uA.Nodup) : (commitTier l uA uB).usedA.Nodup := by
  induction l generalizing uA uB with
  | nil => exact hA
  | cons c rest ih =>
    unfold commitTier
    by_cases hc : c.a ∈ uA ∨ c.b ∈ uB
    · rw [if_pos hc]
      exact ih hA
    · rw [if_neg hc]
      exact ih (List.nodup_cons.mpr ⟨fun h => hc (Or.inl h), hA⟩)

theorem commitTier_usedB_nodup {l : List MatchCandidate} {uA uB : List Nat}
    (hB : uB.Nodup) : (commitTier l uA uB).usedB.Nodup := by
  induction l generalizing uA uB with
  | nil => exact hB
  | cons c rest ih =>
    unfold commitTier
    by_cases hc : c.a ∈ uA ∨ c.b ∈ uB
    · rw [if_pos hc]
      exact ih hB
    · rw [if_neg hc]
      exact ih (List.nodup_cons.mpr ⟨fun h => hc (Or.inr h), hB⟩)

theorem commitTier_usedA_perm (l : List MatchCandidate) (uA uB : List Nat) :
    (commitTier l uA uB).usedA.Perm
      ((commitTier l uA uB).committed.map (fun c => c.a) ++ uA) := by
  rw [commitTier_usedA]
  exact ((commitTier l uA uB).committed.map (fun c => c.a)).reverse_perm.append_right uA

theorem commitTier_usedB_perm (l : List MatchCandidate) (uA uB : List Nat) :
    (commitTier l uA uB).usedB.Perm
      ((commitTier l uA uB).committed.map (fun c => c.b) ++ uB) := by
  rw [commitTier_usedB]
  exact ((commitTier l uA uB).committed.map (fun c => c.b)).reverse_perm.append_right uB

theorem commitTier_cons_skip {d : MatchCandidate} {uA uB : List Nat}
    (hd : d.a ∈ uA ∨ d.b ∈ uB) (l : List MatchCandidate) :
    commitTier (d :: l) uA uB = commitTier l uA uB := by
  simp only [commitTier]
  rw [if_pos hd]

theorem commitTier_cons_commit {d : MatchCandidate} {uA uB : List Nat}
    (hd : ¬(d.a ∈ uA ∨ d.b ∈ uB)) (l : List MatchCandidate) :
    commitTier (d :: l) uA uB =
      ⟨d :: (commitTier l (d.a :: uA) (d.b :: uB)).committed,
        (commitTier l (d.a :: uA) (d.b :: uB)).usedA,
        (commitTier l (d.a :: uA) (d.b :: uB)).usedB⟩ := by
  simp only [commitTier]
  rw [if_neg hd]

theorem commitTier_append_one (l : List MatchCandidate) (c : MatchCandidate)
    (uA uB : List Nat) :
    commitTier (l ++ [c]) uA uB =
      if c.a ∈ (commitTier l uA uB).usedA ∨ c.b ∈ (commitTier l uA uB).usedB then
        commitTier l uA uB
      else
        ⟨(commitTier l uA uB).committed ++ [c],
          c.a :: (commitTier l uA uB).usedA, c.b :: (commitTier l uA uB).usedB⟩ := by
  induction l generalizing uA uB with
  | nil =>
    rw [List.nil_append]
    by_cases hc : c.a ∈ uA ∨ c.b ∈ uB
    · rw [commitTier_cons_skip hc]
      exact (if_pos hc).symm
    · rw [commitTier_cons_commit hc]
      exact (if_neg hc).symm
  | cons d rest ih =>
    rw [List.cons_append]
    by_cases hd : d.a ∈ uA ∨ d.b ∈ uB
    · rw [commitTier_cons_skip hd, commitTier_cons_skip hd]
      exact ih uA uB
    · rw [commitTier_cons_commit hd, commitTier_cons_commit hd,
        ih (d.a :: uA) (d.b :: uB)]
      dsimp only
      by_cases hc : c.a ∈ (commitTier rest (d.a :: uA) (d.b :: uB)).usedA ∨
          c.b ∈ (commitTier rest (d.a :: uA) (d.b :: uB)).usedB
      · rw [if_pos hc, if_pos hc]
      · rw [if_neg hc, if_neg hc]
        rfl

theorem commitTier_commit_iff (l : List MatchCandidate) (c : MatchCandidate)
    (uA uB : List Nat) :
    commitTier (l ++ [c]) uA uB =
      if (c.a ∈ uA ∨ c.a ∈ (commitTier l uA uB).committed.map (fun x => x.a)) ∨
         (c.b ∈ uB ∨ c.b ∈ (commitTier l uA uB).committed.map (fun x => x.b)) then
        commitTier l uA uB
      else
        ⟨(commitTier l uA uB).committed ++ [c],
          c.a :: (commitTier l uA uB).usedA, c.b :: (commitTier l uA uB).usedB⟩ := by
  rw [commitTier_append_one]
  refine if_congr ?_ rfl rfl
  rw [commitTier_usedA, commitTier_usedB]
  simp only [List.mem_append, List.mem_reverse]
  tauto

theorem perm_blocks5 (a b c d e : List Nat) :
    (e ++ (d ++ (c ++ (b ++ (a ++ []))))).Perm (a ++ b ++ c ++ d ++ e) := by
  rw [← Multiset.coe_eq_coe]
  simp only [List.append_nil, ← Multiset.coe_add]
  abel

theorem resolvedFrom_partition_A (L1 L2 L3 L4 L5 : List MatchCandidate) (nA nB : Nat)
    (hbound : ∀ c : MatchCandidate,
      (c ∈ L1 ∨ c ∈ L2 ∨ c ∈ L3 ∨ c ∈ L4 ∨ c ∈ L5) → c.a < nA) :
    (committedA (resolvedFrom L1 L2 L3 L4 L5 nA nB) ++
      (resolvedFrom L1 L2 L3 L4 L5 nA nB).onlyInA).Perm (List.range nA) := by
  simp only [resolvedFrom, committedA, List.map_append]
  set r1 := commitTier L1 ([] : List Nat) ([] : List Nat) with hr1
  set r2 := commitTier L2 r1.usedA r1.usedB with hr2
  set r3 := commitTier L3 r2.usedA r2.usedB with hr3
  set r4 := commitTier L4 r3.usedA r3.usedB with hr4
  set r5 := commitTier L5 r4.usedA r4.usedB with hr5
  set m1 := r1.committed.map (fun c => c.a) with hm1
  set m2 := r2.committed.map (fun c => c.a) with hm2
  set m3 := r3.committed.map (fun c => c.a) with hm3
  set m4 := r4.committed.map (fun c => c.a) with hm4
  set m5 := r5.committed.map (fun c => c.a) with hm5
  have hperm : r5.usedA.Perm (m1 ++ m2 ++ m3 ++ m4 ++ m5) := by
    have p1 : r1.usedA.Perm (m1 ++ []) := by
      rw [hr1, hm1]; exact commitTier_usedA_perm L1 [] []
    have p2 : r2.usedA.Perm (m2 ++ r1.usedA) := by
      rw [hr2, hm2]; exact commitTier_usedA_perm L2 r1.usedA r1.usedB
    have p3 : r3.usedA.Perm (m3 ++ r2.usedA) := by
      rw [hr3, hm3]; exact commitTier_usedA_perm L3 r2.usedA r2.usedB
    have p4 : r4.usedA.Perm (m4 ++ r3.usedA) := by
      rw [hr4, hm4]; exact commitTier_usedA_perm L4 r3.usedA r3.usedB
    have p5 : r5.usedA.Perm (m5 ++ r4.usedA) := by
      rw [hr5, hm5]; exact commitTier_usedA_perm L5 r4.usedA r4.usedB
    have chain : r5.usedA.Perm (m5 ++ (m4 ++ (m3 ++ (m2 ++ (m1 ++ []))))) :=
      p5.trans ((p4.trans ((p3.trans ((p2.trans
        (p1.append_left m2)).append_left m3)).append_left m4)).append_left m5)
    exact chain.trans (perm_blocks5 m1 m2 m3 m4 m5)
  have hnd5 : r5.usedA.Nodup := by
    rw [hr5]
    exact commitTier_usedA_nodup (by
      rw [hr4]
      exact commitTier_usedA_nodup (by
        rw [hr3]
        exact commitTier_usedA_nodup (by
          rw [hr2]
          exact commitTier_usedA_nodup (by
            rw [hr1]
            exact commitTier_usedA_nodup List.nodup_nil))))
  have hndAll : (m1 ++ m2 ++ m3 ++ m4 ++ m5).Nodup :=
    hperm.nodup_iff.mp hnd5
  have hsub : ∀ i, i ∈ m1 ++ m2 ++ m3 ++ m4 ++ m5 → i < nA := by
    intro i hi
    simp only [List.mem_append, hm1, hm2, hm3, hm4, hm5, List.mem_map] at hi
    rcases hi with (((⟨c, hc, rfl⟩ | ⟨c, hc, rfl⟩) | ⟨c, hc, rfl⟩) | ⟨c, hc, rfl⟩) |
      ⟨c, hc, rfl⟩
    · exact hbound c (Or.inl (commitTier_committed_subset hc))
    · exact hbound c (Or.inr (Or.inl (commitTier_committed_subset hc)))
    · exact hbound c (Or.inr (Or.inr (Or.inl (commitTier_committed_subset hc))))
    · exact hbound c (Or.inr (Or.inr (Or.inr (Or.inl (commitTier_committed_subset hc)))))
    · exact hbound c (Or.inr (Or.inr (Or.inr (Or.inr (commitTier_committed_subset hc)))))
  have honly : ∀ i, i ∈ (List.range nA).filter (fun i => decide (i ∉ r5.usedA)) ↔
      (i < nA ∧ i ∉ r5.usedA) := by
    intro i
    simp [List.mem_filter, List.mem_range]
  refine (List.perm_ext_iff_of_nodup ?_ (List.nodup_range nA)).mpr ?_
  · refine List.Nodup.append hndAll ((List.nodup_range nA).filter _) ?_
    intro i hiC hiF
    exact ((honly i).mp hiF).2 (hperm.mem_iff.mpr hiC)
  · intro i
    rw [List.mem_append, honly i, List.mem_range]
    constructor
    · rintro (h | h)
      · exact hsub i h
      · exact h.1
    · intro hi
      by_cases hu : i ∈ r5.usedA
      · exact Or.inl (hperm.mem_iff.mp hu)
      · exact Or.inr ⟨hi, hu⟩

theorem resolvedFrom_partition_B (L1 L2 L3 L4 L5 : List MatchCandidate) (nA nB : Nat)
    (hbound : ∀ c : MatchCandidate,
      (c ∈ L1 ∨ c ∈ L2 ∨ c ∈ L3 ∨ c ∈ L4 ∨ c ∈ L5) → c.b < nB) :
    (committedB (resolvedFrom L1 L2 L3 L4 L5 nA nB) ++
      (resolvedFrom L1 L2 L3 L4 L5 nA nB).onlyInB).Perm (List.range nB) := by
  simp only [resolvedFrom, committedB, List.map_append]
  set r1 := commitTier L1 ([] : List Nat) ([] : List Nat) with hr1
  set r2 := commitTier L2 r1.usedA r1.usedB with hr2
  set r3 := commitTier L3 r2.usedA r2.usedB with hr3
  set r4 := commitTier L4 r3.usedA r3.usedB with hr4
  set r5 := commitTier L5 r4.usedA r4.usedB with hr5
  set m1 := r1.committed.map (fun c => c.b) with hm1
  set m2 := r2.committed.map (fun c => c.b) with hm2
  set m3 := r3.committed.map (fun c => c.b) with hm3
  set m4 := r4.committed.map (fun c => c.b) with hm4
  set m5 := r5.committed.map (fun c => c.b) with hm5
  have hperm : r5.usedB.Perm (m1 ++ m2 ++ m3 ++ m4 ++ m5) := by
    have p1 : r1.usedB.Perm (m1 ++ []) := by
      rw [hr1, hm1]; exact commitTier_usedB_perm L1 [] []
    have p2 : r2.usedB.Perm (m2 ++ r1.usedB) := by
      rw [hr2, hm2]; exact commitTier_usedB_perm L2 r1.usedA r1.usedB
    have p3 : r3.usedB.Perm (m3 ++ r2.usedB) := by
      rw [hr3, hm3]; exact commitTier_usedB_perm L3 r2.usedA r2.usedB
    have p4 : r4.usedB.Perm (m4 ++ r3.usedB) := by
      rw [hr4, hm4]; exact commitTier_usedB_perm L4 r3.usedA r3.usedB
    have p5 : r5.usedB.Perm (m5 ++ r4.usedB) := by
      rw [hr5, hm5]; exact commitTier_usedB_perm L5 r4.usedA r4.usedB
    have chain : r5.usedB.Perm (m5 ++ (m4 ++ (m3 ++ (m2 ++ (m1 ++ []))))) :=
      p5.trans ((p4.trans ((p3.trans ((p2.trans
        (p1.append_left m2)).append_left m3)).append_left m4)).append_left m5)
    exact chain.trans (perm_blocks5 m1 m2 m3 m4 m5)
  have hnd5 : r5.usedB.Nodup := by
    rw [hr5]
    exact commitTier_usedB_nodup (by
      rw [hr4]
      exact commitTier_usedB_nodup (by
        rw [hr3]
        exact commitTier_usedB_nodup (by
          rw [hr2]
          exact commitTier_usedB_nodup (by
            rw [hr1]
            exact commitTier_usedB_nodup List.nodup_nil))))
  have hndAll : (m1 ++ m2 ++ m3 ++ m4 ++ m5).Nodup :=
    hperm.nodup_iff.mp hnd5
  have hsub : ∀ i, i ∈ m1 ++ m2 ++ m3 ++ m4 ++ m5 → i < nB := by
    intro i hi
    simp only [List.mem_append, hm1, hm2, hm3, hm4, hm5, List.mem_map] at hi
    rcases hi with (((⟨c, hc, rfl⟩ | ⟨c, hc, rfl⟩) | ⟨c, hc, rfl⟩) | ⟨c, hc, rfl⟩) |
      ⟨c, hc, rfl⟩
    · exact hbound c (Or.inl (commitTier_committed_subset hc))
    · exact hbound c (Or.inr (Or.inl (commitTier_committed_subset hc)))
    · exact hbound c (Or.inr (Or.inr (Or.inl (commitTier_committed_subset hc))))
    · exact hbound c (Or.inr (Or.inr (Or.inr (Or.inl (commitTier_committed_subset hc)))))
    · exact hbound c (Or.inr (Or.inr (Or.inr (Or.inr (commitTier_committed_subset hc)))))
  have honly : ∀ i, i ∈ (List.range nB).filter (fun i => decide (i ∉ r5.usedB)) ↔
      (i < nB ∧ i ∉ r5.usedB) := by
    intro i
    simp [List.mem_filter, List.mem_range]
  refine (List.perm_ext_iff_of_nodup ?_ (List.nodup_range nB)).mpr ?_
  · refine List.Nodup.append hndAll ((List.nodup_range nB).filter _) ?_
    intro i hiC hiF
    exact ((honly i).mp hiF).2 (hperm.mem_iff.mpr hiC)
  · intro i
    rw [List.mem_append, honly i, List.mem_range]
    constructor
    · rintro (h | h)
      · exact hsub i h
      · exact h.1
    · intro hi
      by_cases hu : i ∈ r5.usedB
      · exact Or.inl (hperm.mem_iff.mp hu)
      · exact Or.inr ⟨hi, hu⟩


theorem exactCond_iff {p : Params} {x y : LedgerRecord} :
    exactCond p x y = true ↔
      (x.date = y.date ∧ x.amount_minor = y.amount_minor ∧ accountPairEqb x y = true) := by
  simp [exactCond]

theorem flatMap_nil_fun (l : List α) : l.flatMap (fun _ => ([] : List β)) = [] := by
  induction l with
  | nil => rfl
  | cons a l ih => simp [ih]

theorem genTier_nil_right (cond : LedgerRecord → LedgerRecord → Bool) (t : Tier)
    (A : List LedgerRecord) : genTier cond t A [] = [] := by
  simp [genTier, genUnsorted, sortBy, flatMap_nil_fun]

theorem genTier_nil_left (cond : LedgerRecord → LedgerRecord → Bool) (t : Tier)
    (B : List LedgerRecord) : genTier cond t [] B = [] := by
  simp [genTier, genUnsorted, sortBy]

/-! ## Claim theorems C1–C7 (matching engine, modelled from the spec) -/

/-- **C1.** The reconciliation pipeline is a deterministic function of the
two input ledgers and the three tunable parameters: identical inputs and
parameters always yield the identical `ResolvedSet`, contents and
ordering included. -/
theorem resolve_deterministic (p p' : Params) (A A' B B' : List LedgerRecord)
    (hp : p = p') (hA : A = A') (hB : B = B') :
    resolve p A B = resolve p' A' B' := by
  subst hp hA hB
  rfl

/-- Witness for C1: two runs on the same concrete one-row ledgers and the
default parameters produce the same resolved set. -/
theorem resolve_deterministic_witness :
    resolve defaultParams [wRecA] [wRecB] = resolve defaultParams [wRecA] [wRecB] :=
  resolve_deterministic defaultParams defaultParams [wRecA] [wRecA] [wRecB] [wRecB]
    rfl rfl rfl

/-- **C2.** For every pair of ledgers and parameters, the committed row
ids across the 5 match tiers plus the corresponding residual tier form a
permutation of the ledger's full id range — each id occurs exactly once,
none is missing and none appears in two tiers — for each ledger
separately. -/
theorem resolve_partition (p : Params) (A B : List LedgerRecord) :
    (committedA (resolve p A B) ++ (resolve p A B).onlyInA).Perm
      (List.range A.length) ∧
    (committedB (resolve p A B) ++ (resolve p A B).onlyInB).Perm
      (List.range B.length) := by
  unfold resolve
  constructor
  · apply resolvedFrom_partition_A
    intro c hc
    rcases hc with h | h | h | h | h <;> exact (genTier_bounds h).1
  · apply resolvedFrom_partition_B
    intro c hc
    rcases hc with h | h | h | h | h <;> exact (genTier_bounds h).2

/-- **C3.** The candidate generator emits an exact-tier candidate for row
pair `(i, j)` iff the two records have the same date, the same
`amount_minor` and the same unordered {debit, credit} account pair; and
every exact-tier candidate's score is `3.0 + similarity` of the two
descriptions. -/
theorem exact_tier_characterization (p : Params) (A B : List LedgerRecord) :
    (∀ i j : Nat,
      (∃ c ∈ exactCandidates p A B, c.a = i ∧ c.b = j) ↔
      (∃ x y, A[i]? = some x ∧ B[j]? = some y ∧
        (x.date = y.date ∧ x.amount_minor = y.amount_minor ∧
          accountPairEqb x y = true))) ∧
    (∀ c ∈ exactCandidates p A B,
      ∃ x y, A[c.a]? = some x ∧ B[c.b]? = some y ∧
        c.score = 3 + similarity x.description y.description) := by
  constructor
  · intro i j
    constructor
    · rintro ⟨c, hc, rfl, rfl⟩
      obtain ⟨i', x, j', y, hix, hjy, hcond, rfl⟩ := mem_genTier.mp hc
      exact ⟨x, y, hix, hjy, exactCond_iff.mp hcond⟩
    · rintro ⟨x, y, hix, hjy, hcond⟩
      exact ⟨mkCand .exact i j x y,
        mem_genTier.mpr ⟨i, x, j, y, hix, hjy, exactCond_iff.mpr hcond, rfl⟩, rfl, rfl⟩
  · intro c hc
    obtain ⟨i, x, j, y, hix, hjy, _, rfl⟩ := mem_genTier.mp hc
    exact ⟨x, y, hix, hjy, rfl⟩

/-- Witness for C3: on two identical one-row ledgers, the generated
exact-tier candidate scores `3 + similarity`, with both records located
at index 0. -/
theorem exact_tier_characterization_witness :
    ∃ x y, [wRecA][(0 : Nat)]? = some x ∧ [wRecB][(0 : Nat)]? = some y ∧
      (mkCand .exact 0 0 wRecA wRecB).score =
        3 + similarity x.description y.description :=
  (exact_tier_characterization defaultParams [wRecA] [wRecB]).2
    (mkCand .exact 0 0 wRecA wRecB) (by with_unfolding_all decide)

/-- **C4.** The greedy resolver processes the five tiers in fixed
priority order (exact, same-amount-near-date, same-date-near-amount,
near-amount-near-date, fuzzy), threading the used-id sets; within a tier
the candidate list is walked in order, a candidate is committed iff
neither of its row ids is in the incoming used sets nor among the ids
committed earlier in the same walk, and committing pushes both of its
ids onto the used sets carried to all remaining candidates. -/
theorem greedy_resolver_rule :
    (∀ (p : Params) (A B : List LedgerRecord),
      resolve p A B =
        resolvedFrom (exactCandidates p A B) (sameAmountNearDateCandidates p A B)
          (sameDateNearAmountCandidates p A B) (nearAmountNearDateCandidates p A B)
          (fuzzyCandidates p A B) A.length B.length) ∧
    (∀ (l : List MatchCandidate) (uA uB : List Nat),
      (commitTier l uA uB).usedA =
        ((commitTier l uA uB).committed.map (fun c => c.a)).reverse ++ uA ∧
      (commitTier l uA uB).usedB =
        ((commitTier l uA uB).committed.map (fun c => c.b)).reverse ++ uB) ∧
    (∀ (l : List MatchCandidate) (c : MatchCandidate) (uA uB : List Nat),
      commitTier (l ++ [c]) uA uB =
        if (c.a ∈ uA ∨ c.a ∈ (commitTier l uA uB).committed.map (fun x => x.a)) ∨
           (c.b ∈ uB ∨ c.b ∈ (commitTier l uA uB).committed.map (fun x => x.b)) then
          commitTier l uA uB
        else
          ⟨(commitTier l uA uB).committed ++ [c],
            c.a :: (commitTier l uA uB).usedA,
            c.b :: (commitTier l uA uB).usedB⟩) :=
  ⟨fun _ _ _ => rfl,
    fun l uA uB => ⟨commitTier_usedA l uA uB, commitTier_usedB l uA uB⟩,
    commitTier_commit_iff⟩

/-- **C5.** A debit/credit swap between the two ledgers still counts as
an equal unordered account pair; a swapped pair qualifies for the exact
tier exactly when its non-swapped counterpart does, and it scores
identically to the non-swapped exact match. -/
theorem swapped_pair_symmetry (a b : LedgerRecord)
    (hd : a.debit_account = b.credit_account)
    (hc : a.credit_account = b.debit_account) :
    accountPairEqb a b = true ∧
    (∀ p : Params, exactCond p a b =
      exactCond p a ⟨b.date, b.credit_account, b.debit_account, b.amount,
        b.amount_minor, b.description⟩) ∧
    tierScore .exact a b =
      tierScore .exact a ⟨b.date, b.credit_account, b.debit_account, b.amount,
        b.amount_minor, b.description⟩ := by
  refine ⟨by simp [accountPairEqb]; exact Or.inr ⟨hd, hc⟩, ?_, rfl⟩
  intro p
  simp only [exactCond, accountPairEqb]
  simp [hd, hc]

/-- Witness for C5: debit="100"/credit="200" against debit="200"/
credit="100" — the unordered rule accepts the pair, exact-tier
qualification and score agree with the non-swapped counterpart. -/
theorem swapped_pair_symmetry_witness :
    accountPairEqb wSwapA wSwapB = true ∧
    exactCond defaultParams wSwapA wSwapB =
      exactCond defaultParams wSwapA ⟨wSwapB.date, wSwapB.credit_account,
        wSwapB.debit_account, wSwapB.amount, wSwapB.amount_minor, wSwapB.description⟩ ∧
    tierScore .exact wSwapA wSwapB =
      tierScore .exact wSwapA ⟨wSwapB.date, wSwapB.credit_account,
        wSwapB.debit_account, wSwapB.amount, wSwapB.amount_minor, wSwapB.description⟩ :=
  ⟨(swapped_pair_symmetry wSwapA wSwapB rfl rfl).1,
    (swapped_pair_symmetry wSwapA wSwapB rfl rfl).2.1 defaultParams,
    (swapped_pair_symmetry wSwapA wSwapB rfl rfl).2.2⟩

/-- **C6.** The divergence detector emits a pair for a (date, rounded
amount) key only when the residual-A group and the residual-B group of
that key each contain exactly one row; in particular no pair is emitted
for an ambiguous key. -/
theorem divergence_unique_groups (rA rB : List ResidualRow) (pr : DivPair)
    (h : pr ∈ divergences rA rB) :
    (rA.filter (fun r => decide (dkey r = (pr.date, pr.amount)))).length = 1 ∧
    (rB.filter (fun r => decide (dkey r = (pr.date, pr.amount)))).length = 1 := by
  unfold divergences at h
  rw [mem_sortBy, List.mem_filterMap] at h
  obtain ⟨k, _, hmk⟩ := h
  rcases hga : rA.filter (fun r => decide (dkey r = k)) with - | ⟨x, gx⟩
  · rw [hga] at hmk
    simp at hmk
  rcases gx with - | ⟨x2, gxs⟩
  · rcases hgb : rB.filter (fun r => decide (dkey r = k)) with - | ⟨y, gy⟩
    · rw [hga, hgb] at hmk
      simp at hmk
    rcases gy with - | ⟨y2, gys⟩
    · rw [hga, hgb] at hmk
      dsimp only at hmk
      by_cases hleg : x.debit_account = y.debit_account ∧
          x.credit_account = y.credit_account
      · rw [if_pos hleg] at hmk
        exact absurd hmk (by simp)
      · rw [if_neg hleg, Option.some_inj] at hmk
        subst hmk
        constructor
        · show (rA.filter (fun r => decide (dkey r = k))).length = 1
          rw [hga]
          rfl
        · show (rB.filter (fun r => decide (dkey r = k))).length = 1
          rw [hgb]
          rfl
    · rw [hga, hgb] at hmk
      simp at hmk
  · rw [hga] at hmk
    simp at hmk

set_option maxRecDepth 4000 in
/-- Witness for C6: for the concrete residual sets with one row each
sharing a key but disagreeing on the debit leg, the emitted pair's key
groups have size exactly 1 on both sides. -/
theorem divergence_unique_groups_witness :
    ([wResA].filter (fun r => decide (dkey r = (wDivPair.date, wDivPair.amount)))).length = 1 ∧
    ([wResB].filter (fun r => decide (dkey r = (wDivPair.date, wDivPair.amount)))).length = 1 :=
  divergence_unique_groups [wResA] [wResB] wDivPair (by with_unfolding_all decide)

/-- **C7.** The cleaning step silently excludes exactly the malformed
rows (it is total — no error path): the cleaned rows count plus the
invalid rows count equals the input count, and every cleaned record
comes from a valid raw row.  And when either ledger is empty, matching
proceeds normally: all five tiers are empty and every row of the
non-empty side lands in that ledger's residual tier. -/
theorem cleaning_and_empty_ledger :
    (∀ rows : List RawRow,
      (cleanLedger rows).length + (rows.filter (fun r => !validRow r)).length =
        rows.length) ∧
    (∀ rows : List RawRow, ∀ rec ∈ cleanLedger rows,
      ∃ r ∈ rows, validRow r = true ∧ rec = toRecord r) ∧
    (∀ (p : Params) (A : List LedgerRecord),
      (resolve p A []).exact = [] ∧ (resolve p A []).sameAmountNearDate = [] ∧
      (resolve p A []).sameDateNearAmount = [] ∧
      (resolve p A []).nearAmountNearDate = [] ∧ (resolve p A []).fuzzy = [] ∧
      (resolve p A []).onlyInA = List.range A.length ∧
      (resolve p A []).onlyInB = []) ∧
    (∀ (p : Params) (B : List LedgerRecord),
      (resolve p [] B).exact = [] ∧ (resolve p [] B).sameAmountNearDate = [] ∧
      (resolve p [] B).sameDateNearAmount = [] ∧
      (resolve p [] B).nearAmountNearDate = [] ∧ (resolve p [] B).fuzzy = [] ∧
      (resolve p [] B).onlyInA = [] ∧
      (resolve p [] B).onlyInB = List.range B.length) := by
  refine ⟨?_, ?_, ?_, ?_⟩
  · intro rows
    rw [cleanLedger, List.length_map]
    exact (List.length_eq_length_filter_add validRow).symm
  · intro rows rec hrec
    rw [cleanLedger] at hrec
    obtain ⟨r, hr, rfl⟩ := List.mem_map.mp hrec
    exact ⟨r, (List.mem_filter.mp hr).1, (List.mem_filter.mp hr).2, rfl⟩
  · intro p A
    unfold resolve exactCandidates sameAmountNearDateCandidates
      sameDateNearAmountCandidates nearAmountNearDateCandidates fuzzyCandidates
    rw [genTier_nil_right, genTier_nil_right, genTier_nil_right, genTier_nil_right,
      genTier_nil_right]
    refine ⟨rfl, rfl, rfl, rfl, rfl, ?_, rfl⟩
    show (List.range A.length).filter (fun i => decide (i ∉ ([] : List Nat))) = _
    simp
  · intro p B
    unfold resolve exactCandidates sameAmountNearDateCandidates
      sameDateNearAmountCandidates nearAmountNearDateCandidates fuzzyCandidates
    rw [genTier_nil_left, genTier_nil_left, genTier_nil_left, genTier_nil_left,
      genTier_nil_left]
    refine ⟨rfl, rfl, rfl, rfl, rfl, rfl, ?_⟩
    show (List.range B.length).filter (fun j => decide (j ∉ ([] : List Nat))) = _
    simp

set_option maxRecDepth 4000 in
/-- Witness for C7: cleaning the two-row raw ledger (one valid row, one
with an unparseable amount) yields a record that comes from the valid
raw row. -/
theorem cleaning_and_empty_ledger_witness :
    ∃ r ∈ [wRawGood, wRawBad], validRow r = true ∧ toRecord wRawGood = toRecord r :=
  cleaning_and_empty_ledger.2.1 [wRawGood, wRawBad] (toRecord wRawGood)
    (by with_unfolding_all decide)

end Seisces
